import Mathlib

/-!
Verification model of the remote tool-call proxy bridge (remote-tools module).

The module proxies six tool operations (read_file, write_file, edit_file,
glob, grep, bash) to a remote host.  We embed its data model and operations
shallowly: file contents are strings, the remote filesystem is an
association list keyed by remote path, time is an explicit natural number
carried in the state, and every operation that can throw in the source is
modelled in `Except String`.  Each tool handler is the catch-wrapper of a
body that threads the state explicitly, mirroring the source's top-level
try/catch per handler.
-/

/-! ## JS-style string primitives (operating on `List Char` / `String`) -/

/-- Index of the first occurrence of `p` in `t` (JS `String.indexOf` style;
`p = []` matches at index 0, as in JS). -/
def findSub (t p : List Char) : Option Nat :=
  match t with
  | [] => if p = [] then some 0 else none
  | _ :: t' =>
    if p.isPrefixOf t then some 0
    else (findSub t' p).map (· + 1)

theorem findSub_ne_none_of_nil (p : List Char) (hp : p ≠ []) :
    findSub [] p = none := by
  simp [findSub, hp]

theorem findSub_nil_ne_some (p : List Char) (i : Nat) (hp : p ≠ [])
    (h : findSub [] p = some i) : False := by
  rw [findSub_ne_none_of_nil p hp] at h
  exact Option.noConfusion h

/-- Fuel-driven splitter (structural recursion so that the kernel can
evaluate it): split `t` at non-overlapping left-to-right occurrences of the
non-empty separator `p`.  Every recursive call drops at least one character
(`i + p.length ≥ 1` at a found occurrence), so `t.length + 1` units of fuel
are never exhausted; `jsSplitPartsFuel_adequate` makes this precise. -/
def jsSplitPartsFuel (p : List Char) : Nat → List Char → List (List Char)
  | 0, t => [t]
  | fuel + 1, t =>
    match findSub t p with
    | none => [t]
    | some i => t.take i :: jsSplitPartsFuel p fuel (t.drop (i + p.length))

/-- JS `t.split(p)` on character lists: for a non-empty separator, the parts
between non-overlapping left-to-right occurrences; for the empty separator,
the list of single characters (JS `"abc".split("")` is `["a","b","c"]`). -/
def jsSplitParts (t p : List Char) : List (List Char) :=
  if p = [] then t.map (fun c => [c])
  else jsSplitPartsFuel p (t.length + 1) t

theorem findSub_some_ne_nil (t p : List Char) (i : Nat) (hp : p ≠ [])
    (h : findSub t p = some i) : t ≠ [] := by
  intro ht
  subst ht
  exact findSub_nil_ne_some p i hp h

/-- The split is fuel-irrelevant above `t.length`: any two adequate fuels
compute the same parts. -/
theorem jsSplitPartsFuel_congr (p : List Char) (hp : p ≠ []) :
    ∀ n t f1 f2, t.length ≤ n → t.length < f1 → t.length < f2 →
      jsSplitPartsFuel p f1 t = jsSplitPartsFuel p f2 t := by
  intro n
  induction n with
  | zero =>
    intro t f1 f2 h0 h1 h2
    cases f1 with
    | zero => omega
    | succ m1 =>
      cases f2 with
      | zero => omega
      | succ m2 =>
        rw [jsSplitPartsFuel, jsSplitPartsFuel]
        have ht : t = [] := List.length_eq_zero.mp (by omega)
        subst ht
        rw [findSub_ne_none_of_nil p hp]
  | succ n ih =>
    intro t f1 f2 hn h1 h2
    cases f1 with
    | zero => omega
    | succ m1 =>
      cases f2 with
      | zero => omega
      | succ m2 =>
        rw [jsSplitPartsFuel, jsSplitPartsFuel]
        cases h : findSub t p with
        | none => rfl
        | some i =>
          have htne : t ≠ [] := findSub_some_ne_nil t p i hp h
          have htl : 0 < t.length := List.length_pos.mpr htne
          have hpl : 0 < p.length := List.length_pos.mpr hp
          have hlt : (t.drop (i + p.length)).length < t.length := by
            rw [List.length_drop]
            omega
          show t.take i :: jsSplitPartsFuel p m1 (t.drop (i + p.length)) =
            t.take i :: jsSplitPartsFuel p m2 (t.drop (i + p.length))
          rw [ih (t.drop (i + p.length)) m1 m2 (by omega) (by omega) (by omega)]

/-- Any fuel above `t.length` computes the same split as the bound used by
`jsSplitParts`: the fuel bound is adequate. -/
theorem jsSplitPartsFuel_adequate (p : List Char) (hp : p ≠ []) (t : List Char)
    (fuel : Nat) (h : t.length < fuel) :
    jsSplitPartsFuel p fuel t = jsSplitPartsFuel p (t.length + 1) t :=
  jsSplitPartsFuel_congr p hp t.length t fuel (t.length + 1) le_rfl h (Nat.lt_succ_self _)

/-- Occurrence count as the source computes it:
`oldText.split(old_string).length - 1` (natural subtraction). -/
def occCount (t p : String) : Nat :=
  (jsSplitParts t.data p.data).length - 1

/-- JS `t.split(sep)` on strings (non-empty separator; the handlers use it
with the newline separator). -/
def jsSplitString (t sep : String) : List String :=
  (jsSplitParts t.data sep.data).map String.mk

/-- JS `t.includes(p)`. -/
def jsIncludes (t p : String) : Bool :=
  (findSub t.data p.data).isSome

/-- ECMA-262 `GetSubstitution` for a string pattern (no capture groups),
as a left-to-right scan with a pending-dollar flag: inside the replacement
string, `$$` stands for a dollar sign, `$&` for the matched substring, a
dollar followed by a backquote for the portion of the subject before the
match, and `$'` for the portion after it; every other dollar sequence
(including `$1`..`$9`, which have no capture to refer to, and a trailing
dollar) is kept literally. -/
def substAux (matched pre post : List Char) : Bool → List Char → List Char
  | pending, [] => if pending then ['$'] else []
  | true, c :: rest =>
    if c = '$' then '$' :: substAux matched pre post false rest
    else if c = '&' then matched ++ substAux matched pre post false rest
    else if c = '`' then pre ++ substAux matched pre post false rest
    else if c = '\'' then post ++ substAux matched pre post false rest
    else '$' :: c :: substAux matched pre post false rest
  | false, c :: rest =>
    if c = '$' then substAux matched pre post true rest
    else c :: substAux matched pre post false rest

/-- The substitution of the replacement-string `$`-patterns. -/
def getSubstitution (matched pre post r : List Char) : List Char :=
  substAux matched pre post false r

/-- Replace the first occurrence of `p` in `t` on character lists (JS
`String.replace` with a string pattern replaces only the first match),
inserting the replacement `r` after processing its `$`-patterns via
`getSubstitution`. -/
def replaceFirstL (t p r : List Char) : List Char :=
  match findSub t p with
  | none => t
  | some i =>
    t.take i ++ getSubstitution p (t.take i) (t.drop (i + p.length)) r ++
      t.drop (i + p.length)

/-- JS `t.replace(p, r)` (first occurrence only, with replacement-string
`$`-pattern substitution) on strings. -/
def jsReplaceFirst (t p r : String) : String :=
  String.mk (replaceFirstL t.data p.data r.data)

/-- Body of `str.replace(/'/g, "'\\''")`: every single quote becomes the
four characters quote, backslash, quote, quote. -/
def escQuoteL : List Char → List Char
  | [] => []
  | c :: cs => (if c = '\'' then ['\'', '\\', '\'', '\''] else [c]) ++ escQuoteL cs

/-- `shellEscape` from the source: wrap in single quotes, escaping embedded
single quotes as `'\''`. -/
def shellEscape (s : String) : String :=
  "'" ++ String.mk (escQuoteL s.data) ++ "'"

/-- The marker inserted between the kept head and tail by `truncateOutput`. -/
def truncMarker : String := "\n\n... [truncated] ...\n\n"

/-- `truncateOutput(text, maxChars = 30000)`: texts within the budget pass
through unchanged; longer texts keep the first and last `maxChars / 2`
characters around the truncation marker. -/
def truncateOutput (text : String) (maxChars : Nat := 30000) : String :=
  if text.length ≤ maxChars then text
  else
    let half := maxChars / 2
    String.mk (text.data.take half) ++ truncMarker ++
      String.mk (text.data.drop (text.length - half))

/-- Clamp a JS slice index to `[0, len]` (negative indices count from the
end, as in `Array.prototype.slice`). -/
def jsSliceIdx (len : Nat) (i : Int) : Nat :=
  if i < 0 then ((len : Int) + i).toNat else min i.toNat len

/-- JS `xs.slice(s, e)` for arrays. -/
def jsSlice {α : Type} (xs : List α) (s e : Int) : List α :=
  (xs.take (jsSliceIdx xs.length e)).drop (jsSliceIdx xs.length s)

/-- JS `s.startsWith(p)`. -/
def strStartsWith (s p : String) : Bool :=
  p.data.isPrefixOf s.data

/-- JS `s.endsWith(p)`. -/
def strEndsWith (s p : String) : Bool :=
  p.data.isSuffixOf s.data

/-- JS `s.slice(n)` for a non-negative character index. -/
def strDropChars (s : String) (n : Nat) : String :=
  String.mk (s.data.drop n)

/-- `filePath.replace(/^[\/\\]/, "")`: strip one leading slash or backslash. -/
def stripLeadSlash (s : String) : String :=
  match s.data with
  | [] => s
  | c :: cs => if c = '/' ∨ c = '\\' then String.mk cs else s

/-- Strip one leading dash (the source's `replace` of the anchored regex
matching a single dash at the start by the empty string). -/
def stripLeadDash (s : String) : String :=
  match s.data with
  | [] => s
  | c :: cs => if c = '-' then String.mk cs else s

/-- Accumulate the maximal run of leading decimal digits. -/
def leadDigitsAux : List Char → Nat → Nat
  | [], acc => acc
  | c :: cs, acc => if c.isDigit then leadDigitsAux cs (acc * 10 + (c.toNat - 48)) else acc

/-- Value of the maximal leading digit run, `none` if there is none. -/
def leadDigits : List Char → Option Nat
  | [] => none
  | c :: cs => if c.isDigit then some (leadDigitsAux cs (c.toNat - 48)) else none

/-- JS `parseInt(s, 10)` on an already-trimmed string: optional sign followed
by a maximal digit run; `none` models `NaN`. -/
def jsParseInt (s : String) : Option Int :=
  match s.data with
  | '-' :: rest => (leadDigits rest).map (fun n => -(n : Int))
  | '+' :: rest => (leadDigits rest).map (fun n => (n : Int))
  | l => (leadDigits l).map (fun n => (n : Int))

/-- Whitespace test for trimming (the common whitespace characters; the
full JS class also has exotic members none of which occur in sentinel
files). -/
def isWsChar (c : Char) : Bool :=
  c = ' ' ∨ c = '\t' ∨ c = '\n' ∨ c = '\r'

/-- JS `s.trim()`: strip leading and trailing whitespace. -/
def jsTrim (s : String) : String :=
  String.mk (((s.data.dropWhile isWsChar).reverse.dropWhile isWsChar).reverse)

/-- `path.posix.join` restricted to the joining behaviour the bridge relies
on (segment normalisation of `.`/`..`, which none of the verified paths
exercise, is not modelled). -/
def posixJoin (a b : String) : String :=
  if b = "" then a
  else if a = "" then b
  else if strEndsWith a "/" then a ++ b
  else a ++ "/" ++ b

/-- Insert a string into an already-sorted list (ascending). -/
def insertSorted (x : String) : List String → List String
  | [] => [x]
  | y :: ys => if x ≤ y then x :: y :: ys else y :: insertSorted x ys

/-- JS `Array.prototype.sort()` on strings: lexicographic ascending order. -/
def sortStrings : List String → List String
  | [] => []
  | x :: xs => insertSorted x (sortStrings xs)

/-! ## Data model of the bridge -/

/-- A tool call result: one text item plus the error flag (`isError` is
absent in the source's success results, i.e. false). -/
structure ToolResult where
  text : String
  isError : Bool
deriving DecidableEq

/-- Result of a completed remote command. -/
structure ExecResult where
  stdout : String
  stderr : String
  exitCode : Int
deriving DecidableEq

/-- Outcome of the optional review gate. -/
structure Review where
  accepted : Bool
  finalContent : String
deriving DecidableEq

/-- One write-visibility cache entry. -/
structure CacheEntry where
  content : String
  timestamp : Nat
deriving DecidableEq

/-- The single-slot edit override. -/
structure OverrideSlot where
  remotePath : String
  content : String
  timestamp : Nat
deriving DecidableEq

/-- Mutable state threaded through the handlers: the remote filesystem (an
association list from remote path to content), the write-visibility cache,
the edit-override slot, and the current time in milliseconds. -/
structure St where
  fs : List (String × String)
  cache : List (String × CacheEntry)
  override : Option OverrideSlot
  now : Nat
deriving DecidableEq

/-- Static configuration and external collaborators: workspace folders,
host settings, the review gate, the remote command executor and the file
finder.  The gate takes (old content, proposed content); its remaining
source arguments (tool name, raw input) do not influence any verified
behaviour and are omitted. -/
structure Config where
  workspaceFolders : List String
  sshHostSetting : String
  remoteAuthority : String
  homedir : String
  reviewEdit : Option (String → String → Review)
  exec : String → String → Nat → Except String ExecResult
  findFiles : String → String → Except String (List String)

/-- Association-list lookup (string keys). -/
def alGet {α : Type} : List (String × α) → String → Option α
  | [], _ => none
  | (k, v) :: rest, key => if k = key then some v else alGet rest key

/-- Association-list insert/overwrite. -/
def alSet {α : Type} : List (String × α) → String → α → List (String × α)
  | [], key, v => [(key, v)]
  | (k, w) :: rest, key, v =>
    if k = key then (key, v) :: rest else (k, w) :: alSet rest key v

/-- Association-list delete. -/
def alDel {α : Type} : List (String × α) → String → List (String × α)
  | [], _ => []
  | (k, w) :: rest, key => if k = key then rest else (k, w) :: alDel rest key

/-- WRITE_CACHE_TTL (10 seconds). -/
def writeCacheTTL : Nat := 10000

/-- EDIT_OVERRIDE_TTL (10 seconds). -/
def editOverrideTTL : Nat := 10000

/-- `cacheWrite(remotePath, content)`: store/overwrite the entry with the
current timestamp. -/
def cacheWrite (st : St) (remotePath content : String) : St :=
  { st with cache := alSet st.cache remotePath ⟨content, st.now⟩ }

/-- `getCachedWrite(remotePath)`: return the cached content if present and
young enough; evict (and miss) an entry older than the TTL. -/
def getCachedWrite (st : St) (remotePath : String) : Option String × St :=
  match alGet st.cache remotePath with
  | none => (none, st)
  | some e =>
    if st.now - e.timestamp > writeCacheTTL then
      (none, { st with cache := alDel st.cache remotePath })
    else (some e.content, st)

/-- `setEditOverride(remotePath, content)`: replace the single slot. -/
def setEditOverride (st : St) (remotePath content : String) : St :=
  { st with override := some ⟨remotePath, content, st.now⟩ }

/-- `consumeEditOverride(remotePath)`: return-and-clear on a fresh match;
clear without returning when stale; leave untouched on a fresh mismatch. -/
def consumeEditOverride (st : St) (remotePath : String) : Option String × St :=
  match st.override with
  | none => (none, st)
  | some o =>
    if o.remotePath = remotePath ∧ st.now - o.timestamp < editOverrideTTL then
      (some o.content, { st with override := none })
    else if st.now - o.timestamp ≥ editOverrideTTL then
      (none, { st with override := none })
    else (none, st)

/-- Read a file through the remote file primitive; a missing file raises
(modelled error text). -/
def fsRead (st : St) (remotePath : String) : Except String String :=
  match alGet st.fs remotePath with
  | some c => .ok c
  | none => .error ("ENOENT: no such file " ++ remotePath)

/-- Write a file through the remote file primitive. -/
def fsWrite (st : St) (remotePath content : String) : St :=
  { st with fs := alSet st.fs remotePath content }

/-! ## Path resolution -/

/-- `getSshHost()`: the `claudeCode.sshHost` setting if non-empty, else the
host extracted from an `ssh-remote+<host>` remote authority, else empty. -/
def getSshHost (cfg : Config) : String :=
  if cfg.sshHostSetting ≠ "" then cfg.sshHostSetting
  else if strStartsWith cfg.remoteAuthority "ssh-remote+" ∧
      11 < cfg.remoteAuthority.length then
    strDropChars cfg.remoteAuthority 11
  else ""

/-- The error message raised when no workspace folder is open. -/
def noWorkspaceMsg : String :=
  "No workspace folder open; cannot determine remote working directory"

/-- `getRemoteCwd()`: the first workspace folder's path, raising when none
is configured. -/
def getRemoteCwd (cfg : Config) : Except String String :=
  match cfg.workspaceFolders with
  | [] => .error noWorkspaceMsg
  | f :: _ => .ok f

/-- The dash-flattened remote workspace path used as the final local
directory component. -/
def safeRemotePathOf (remotePath : String) : String :=
  stripLeadDash (String.mk (remotePath.data.map (fun c => if c = '/' then '-' else c)))

/-- `getLocalCwd()`: `~/.claude/remote/<host>/<flattened remote path>`
(falls back to `"default"` and `"unknown"` when unset; never raises). -/
def getLocalCwd (cfg : Config) : String :=
  let remotePath := match cfg.workspaceFolders with
    | f :: _ => f
    | [] => "default"
  let host := if getSshHost cfg = "" then "unknown" else getSshHost cfg
  posixJoin (posixJoin (posixJoin (posixJoin cfg.homedir ".claude") "remote") host)
    (safeRemotePathOf remotePath)

/-- `toRemotePath(filePath)`: strip the local working root prefix and rejoin
onto the remote workspace root; pass absolute paths through; join relative
paths onto the remote workspace root.  Raises when no workspace folder is
open (via `getRemoteCwd`). -/
def toRemotePath (cfg : Config) (filePath : String) : Except String String :=
  let localRoot := getLocalCwd cfg
  match getRemoteCwd cfg with
  | .error e => .error e
  | .ok remoteCwd =>
    if strStartsWith filePath localRoot then
      let rel := stripLeadSlash (strDropChars filePath localRoot.length)
      .ok (if rel ≠ "" then posixJoin remoteCwd rel else remoteCwd)
    else if strStartsWith filePath "/" then .ok filePath
    else .ok (posixJoin remoteCwd filePath)

/-! ## Remote command executor (sentinel-polling protocol) -/

/-- The remote side of one pending command, as observation functions from
time to sentinel-file contents (`none` models "reading the file throws
because it does not exist yet"). -/
structure SentinelEnv where
  exitFile : Nat → Option String
  outFile : Nat → Option String
  errFile : Nat → Option String

/-- The fixed polling interval (milliseconds). -/
def pollIntervalMs : Nat := 300

/-- The default executor timeout (milliseconds). -/
def defaultTimeoutMs : Nat := 120000

/-- The polling loop of `remoteExec`, fuel-driven (structural recursion so
the kernel can evaluate it): while the elapsed time is below the budget,
sleep one interval, then try to read the exit sentinel; an empty (trimmed)
exit file means "not complete yet"; a non-empty one is parsed as the exit
code (NaN becomes 1) and the stdout/stderr sentinels are read best-effort,
absent ones read as empty.  Each iteration advances the clock by the
300-unit poll interval, so at most `⌈timeoutMs / 300⌉ + 1 ≤ timeoutMs + 1`
iterations run before the guard fails; on exhausted fuel the same timeout
error is produced, so the fuel bound used by `remoteExecPoll` is adequate
(`remoteExecPollFuel_adequate` makes this precise). -/
def remoteExecPollFuel (env : SentinelEnv) (startTime timeoutMs : Nat) :
    Nat → Nat → Except String ExecResult
  | 0, _ => .error ("Command timed out after " ++ toString timeoutMs ++ "ms")
  | fuel + 1, t =>
    if t - startTime < timeoutMs then
      let t' := t + pollIntervalMs
      match env.exitFile t' with
      | none => remoteExecPollFuel env startTime timeoutMs fuel t'
      | some raw =>
        let exitStr := jsTrim raw
        if exitStr = "" then remoteExecPollFuel env startTime timeoutMs fuel t'
        else
          .ok { stdout := (env.outFile t').getD ""
                stderr := (env.errFile t').getD ""
                exitCode := match jsParseInt exitStr with | some n => n | none => 1 }
    else .error ("Command timed out after " ++ toString timeoutMs ++ "ms")

def remoteExecPoll (env : SentinelEnv) (startTime timeoutMs t : Nat) :
    Except String ExecResult :=
  remoteExecPollFuel env startTime timeoutMs (timeoutMs + 1) t

/-- `remoteExec(command, cwd, timeoutMs)`: compose the wrapped command that
redirects output to the three sentinel files and writes the exit status
last, submit it to the shared terminal, poll, and clean up.  The returned
list is the sequence of texts sent to the terminal (the wrapped command,
then the cleanup; on timeout the cleanup also kills the job). -/
def remoteExec (env : SentinelEnv) (startTime : Nat) (tmpBase command cwd : String)
    (timeoutMs : Nat := defaultTimeoutMs) : Except String ExecResult × List String :=
  let cdPart := if cwd ≠ "" then "cd " ++ shellEscape cwd ++ " && " else ""
  let fullCmd := "(" ++ cdPart ++ command ++ ") > " ++ tmpBase ++ ".out 2> " ++
    tmpBase ++ ".err; echo $? > " ++ tmpBase ++ ".exit"
  let r := remoteExecPoll env startTime timeoutMs startTime
  let rmCmd := "rm -f " ++ tmpBase ++ ".out " ++ tmpBase ++ ".err " ++ tmpBase ++ ".exit"
  let cleanup := match r with
    | .ok _ => rmCmd
    | .error _ => "kill %1 2>/dev/null; " ++ rmCmd
  (r, [fullCmd, cleanup])

/-! ## Tool handlers -/

/-- Catch-wrapper shared by all six handlers: an `ok` body result passes
through; a raised error becomes a result with the handler's label prefixed
to the error message and `isError = true`. -/
def wrapH (label : String) (r : Except String ToolResult × St) : ToolResult × St :=
  match r with
  | (.ok v, st) => (v, st)
  | (.error e, st) => (⟨label ++ e, true⟩, st)

/-- The line-slicing step of `read_file`: applied only when an offset or a
limit was given; `start = (offset ?? 1) - 1`, and the end index is
`start + limit` when `limit` is truthy, else the line count. -/
def sliceLines (text : String) (offset limit : Option Int) : String :=
  if offset = none ∧ limit = none then text
  else
    let lines := jsSplitString text "\n"
    let start : Int := offset.getD 1 - 1
    let stop : Int := match limit with
      | some l => if l ≠ 0 then start + l else (lines.length : Int)
      | none => (lines.length : Int)
    String.intercalate "\n" (jsSlice lines start stop)

/-- Body of the `read_file` handler: resolve the path, consult the write
cache first, fall back to a live remote read, slice, truncate. -/
def readFileBody (cfg : Config) (st : St) (file_path : String)
    (offset limit : Option Int) : Except String ToolResult × St :=
  match toRemotePath cfg file_path with
  | .error e => (.error e, st)
  | .ok remotePath =>
    let (cached, st1) := getCachedWrite st remotePath
    match (match cached with
      | some t => Except.ok t
      | none => fsRead st1 remotePath : Except String String) with
    | .error e => (.error e, st1)
    | .ok text =>
      (.ok ⟨truncateOutput (sliceLines text offset limit), false⟩, st1)

/-- The `read_file` handler. -/
def readFileHandler (cfg : Config) (st : St) (file_path : String)
    (offset limit : Option Int) : ToolResult × St :=
  wrapH "Error reading file: " (readFileBody cfg st file_path offset limit)

/-- Body of the `write_file` handler: resolve the path; a pending override
for it is consumed, written and cached in place of the requested content,
skipping the review gate; otherwise read the prior content best-effort,
pass the proposed content through the review gate when configured
(rejection returns an error result without writing), then write and cache
the final content. -/
def writeFileBody (cfg : Config) (st : St) (file_path content : String) :
    Except String ToolResult × St :=
  match toRemotePath cfg file_path with
  | .error e => (.error e, st)
  | .ok remotePath =>
    let (ov, st1) := consumeEditOverride st remotePath
    match ov with
    | some o =>
      let (_, st2) := getCachedWrite st1 remotePath
      let st3 := cacheWrite (fsWrite st2 remotePath o) remotePath o
      (.ok ⟨"Successfully wrote " ++ toString o.utf8ByteSize ++ " bytes to " ++
        file_path, false⟩, st3)
    | none =>
      let (cached, st2) := getCachedWrite st1 remotePath
      let oldText := (cached.getD "")
      let _oldText := if oldText = "" then
          (match fsRead st2 remotePath with | .ok t => t | .error _ => "")
        else oldText
      match cfg.reviewEdit with
      | some gate =>
        let rv := gate _oldText content
        if rv.accepted then
          let st3 := cacheWrite (fsWrite st2 remotePath rv.finalContent) remotePath
            rv.finalContent
          (.ok ⟨"Successfully wrote " ++ toString rv.finalContent.utf8ByteSize ++
            " bytes to " ++ file_path, false⟩, st3)
        else
          (.ok ⟨"Write rejected by user for " ++ file_path, true⟩, st2)
      | none =>
        let st3 := cacheWrite (fsWrite st2 remotePath content) remotePath content
        (.ok ⟨"Successfully wrote " ++ toString content.utf8ByteSize ++
          " bytes to " ++ file_path, false⟩, st3)

/-- The `write_file` handler. -/
def writeFileHandler (cfg : Config) (st : St) (file_path content : String) :
    ToolResult × St :=
  wrapH "Error writing file: " (writeFileBody cfg st file_path content)

/-- Body of the `edit_file` handler: resolve the path; override
short-circuit as in `write_file`; otherwise read the current content
cache-first (a missing file raises), fail with the not-found error result
when the anchor is absent, with the ambiguity error result when it occurs
more than once (the count is `split(old_string).length - 1`), else replace
the unique occurrence, pass the review gate when configured, write and
cache. -/
def editFileBody (cfg : Config) (st : St) (file_path old_string new_string : String) :
    Except String ToolResult × St :=
  match toRemotePath cfg file_path with
  | .error e => (.error e, st)
  | .ok remotePath =>
    let (ov, st1) := consumeEditOverride st remotePath
    match ov with
    | some o =>
      let (_, st2) := getCachedWrite st1 remotePath
      let st3 := cacheWrite (fsWrite st2 remotePath o) remotePath o
      (.ok ⟨"Successfully edited " ++ file_path, false⟩, st3)
    | none =>
      let (cached, st2) := getCachedWrite st1 remotePath
      match (match cached with
        | some t => Except.ok t
        | none => fsRead st2 remotePath : Except String String) with
      | .error e => (.error e, st2)
      | .ok oldText =>
        if ¬ jsIncludes oldText old_string then
          (.ok ⟨"Error: old_string not found in " ++ file_path, true⟩, st2)
        else
          let count := occCount oldText old_string
          if 1 < count then
            (.ok ⟨"Error: old_string found " ++ toString count ++ " times in " ++
              file_path ++ ". Provide more context to make it unique.", true⟩, st2)
          else
            let newText := jsReplaceFirst oldText old_string new_string
            match cfg.reviewEdit with
            | some gate =>
              let rv := gate oldText newText
              if rv.accepted then
                let st3 := cacheWrite (fsWrite st2 remotePath rv.finalContent)
                  remotePath rv.finalContent
                (.ok ⟨"Successfully edited " ++ file_path, false⟩, st3)
              else
                (.ok ⟨"Edit rejected by user for " ++ file_path, true⟩, st2)
            | none =>
              let st3 := cacheWrite (fsWrite st2 remotePath newText) remotePath newText
              (.ok ⟨"Successfully edited " ++ file_path, false⟩, st3)

/-- The `edit_file` handler. -/
def editFileHandler (cfg : Config) (st : St) (file_path old_string new_string : String) :
    ToolResult × St :=
  wrapH "Error editing file: " (editFileBody cfg st file_path old_string new_string)

/-- The `searchPath || getRemoteCwd()` step shared by glob, grep and bash:
a truthy (non-empty) explicit path wins, otherwise the remote workspace
root (which raises when no workspace folder is open). -/
def searchBase (cfg : Config) (searchPath : Option String) : Except String String :=
  match searchPath with
  | some p => if p ≠ "" then .ok p else getRemoteCwd cfg
  | none => getRemoteCwd cfg

/-- Resolution of the effective working directory for glob/grep/bash:
`toRemotePath(searchPath || getRemoteCwd())`. -/
def resolveBase (cfg : Config) (searchPath : Option String) : Except String String :=
  match searchBase cfg searchPath with
  | .error e => .error e
  | .ok p => toRemotePath cfg p

/-- Body of the `glob` handler: resolve the base directory, enumerate
matching files (bounded by the collaborator), sort, and join, with an
explicit no-matches message. -/
def globBody (cfg : Config) (st : St) (pat : String) (searchPath : Option String) :
    Except String ToolResult × St :=
  match resolveBase cfg searchPath with
  | .error e => (.error e, st)
  | .ok base =>
    match cfg.findFiles base pat with
    | .error e => (.error e, st)
    | .ok files =>
      let paths := sortStrings files
      (.ok ⟨if 0 < paths.length then String.intercalate "\n" paths
        else "No files found matching pattern.", false⟩, st)

/-- The `glob` handler. -/
def globHandler (cfg : Config) (st : St) (pat : String) (searchPath : Option String) :
    ToolResult × St :=
  wrapH "Error globbing: " (globBody cfg st pat searchPath)

/-- The primary (ripgrep) command built by the `grep` handler; a falsy
(absent, empty or zero) option contributes nothing. -/
def rgCmdOf (pat : String) (incl : Option String) (context maxResults : Option Int) :
    String :=
  "rg --color=never --line-number" ++
    (match incl with
      | some g => if g ≠ "" then " --glob " ++ shellEscape g else ""
      | none => "") ++
    (match context with
      | some c => if c ≠ 0 then " -C " ++ toString c else ""
      | none => "") ++
    (match maxResults with
      | some m => if m ≠ 0 then " --max-count " ++ toString m else ""
      | none => "") ++
    " " ++ shellEscape pat

/-- The fallback command built by the `grep` handler when the primary tool
is absent. -/
def grepCmdOf (pat : String) (incl : Option String) (context maxResults : Option Int) :
    String :=
  "grep -rn" ++
    (match incl with
      | some g => if g ≠ "" then " --include=" ++ shellEscape g else ""
      | none => "") ++
    (match context with
      | some c => if c ≠ 0 then " -C " ++ toString c else ""
      | none => "") ++
    (match maxResults with
      | some m => if m ≠ 0 then " -m " ++ toString m else ""
      | none => "") ++
    " " ++ shellEscape pat ++ " ."

/-- The trigger for the fallback re-execution: primary exit code 127, or a
non-empty stderr containing "command not found". -/
def rgAbsent (r : ExecResult) : Prop :=
  r.exitCode = 127 ∨ (r.stderr ≠ "" ∧ jsIncludes r.stderr "command not found")

instance (r : ExecResult) : Decidable (rgAbsent r) := by
  unfold rgAbsent
  infer_instance

/-- Classification of the final search result: exit 1 with empty stdout is
"no matches" (not an error); exit above 1 is an error carrying
`stderr || stdout`; anything else returns the truncated stdout. -/
def classifyGrep (r : ExecResult) : ToolResult :=
  if r.exitCode = 1 ∧ r.stdout = "" then ⟨"No matches found.", false⟩
  else if 1 < r.exitCode then
    ⟨"grep error (exit " ++ toString r.exitCode ++ "): " ++
      (if r.stderr ≠ "" then r.stderr else r.stdout), true⟩
  else ⟨truncateOutput r.stdout, false⟩

/-- Body of the `grep` handler; the second component of the inner pair is
the sequence of commands handed to the executor. -/
def grepBody (cfg : Config) (st : St) (pat : String) (searchPath incl : Option String)
    (context maxResults : Option Int) :
    (Except String ToolResult × List String) × St :=
  match resolveBase cfg searchPath with
  | .error e => ((.error e, []), st)
  | .ok cwd =>
    let rgCmd := rgCmdOf pat incl context maxResults
    match cfg.exec rgCmd cwd defaultTimeoutMs with
    | .error e => ((.error e, [rgCmd]), st)
    | .ok r1 =>
      if rgAbsent r1 then
        let grepCmd := grepCmdOf pat incl context maxResults
        match cfg.exec grepCmd cwd defaultTimeoutMs with
        | .error e => ((.error e, [rgCmd, grepCmd]), st)
        | .ok r2 => ((.ok (classifyGrep r2), [rgCmd, grepCmd]), st)
      else ((.ok (classifyGrep r1), [rgCmd]), st)

/-- The `grep` handler. -/
def grepHandler (cfg : Config) (st : St) (pat : String) (searchPath incl : Option String)
    (context maxResults : Option Int) : ToolResult × St :=
  wrapH "Error running grep: "
    (((grepBody cfg st pat searchPath incl context maxResults).1.1),
      (grepBody cfg st pat searchPath incl context maxResults).2)

/-- The commands the `grep` handler hands to the executor, in order. -/
def grepTrace (cfg : Config) (st : St) (pat : String) (searchPath incl : Option String)
    (context maxResults : Option Int) : List String :=
  (grepBody cfg st pat searchPath incl context maxResults).1.2

/-- Body of the `bash` handler: resolve the working directory, wrap the
command as `bash -c <escaped>`, execute with the given or default timeout,
and concatenate stdout and stderr (stderr appended after a newline when
both are present), with an explicit no-output fallback message. -/
def bashBody (cfg : Config) (st : St) (command : String) (cwd : Option String)
    (timeout : Option Nat) : Except String ToolResult × St :=
  match resolveBase cfg cwd with
  | .error e => (.error e, st)
  | .ok remoteCwd =>
    let timeoutMs := match timeout with
      | some ms => if ms ≠ 0 then ms else defaultTimeoutMs
      | none => defaultTimeoutMs
    let bashCmd := "bash -c " ++ shellEscape command
    match cfg.exec bashCmd remoteCwd timeoutMs with
    | .error e => (.error e, st)
    | .ok r =>
      let out1 := if r.stdout ≠ "" then r.stdout else ""
      let out2 := if r.stderr ≠ "" then
          out1 ++ (if out1 ≠ "" then "\n" else "") ++ r.stderr
        else out1
      let output := if out2 = "" then
          "(no output, exit code " ++ toString r.exitCode ++ ")"
        else out2
      (.ok ⟨truncateOutput output, false⟩, st)

/-- The `bash` handler. -/
def bashHandler (cfg : Config) (st : St) (command : String) (cwd : Option String)
    (timeout : Option Nat) : ToolResult × St :=
  wrapH "Error running bash: " (bashBody cfg st command cwd timeout)

/-! ## Fixtures and general lemmas -/

/-- A concrete executor oracle family: fixed host and workspace settings,
no review gate, with the remote command executor left as a parameter. -/
def cfgOf (E : String → String → Nat → Except String ExecResult) : Config :=
  { workspaceFolders := ["/ws"], sshHostSetting := "h", remoteAuthority := "",
    homedir := "/home/u", reviewEdit := none, exec := E,
    findFiles := fun _ _ => .ok [] }

/-- A concrete configuration whose executor always fails. -/
def cfg0 : Config := cfgOf (fun _ _ _ => .error "exec unavailable")

/-- The empty initial state. -/
def st0 : St := { fs := [], cache := [], override := none, now := 0 }

theorem wrapH_fst (label : String) (r : Except String ToolResult × St) :
    (wrapH label r).1 = match r.1 with
      | .ok v => v
      | .error e => ⟨label ++ e, true⟩ := by
  obtain ⟨r1, s⟩ := r
  cases r1 <;> rfl

theorem wrapH_snd (label : String) (r : Except String ToolResult × St) :
    (wrapH label r).2 = r.2 := by
  obtain ⟨r1, s⟩ := r
  cases r1 <;> rfl

theorem alGet_alSet_self {α : Type} (l : List (String × α)) (k : String) (v : α) :
    alGet (alSet l k v) k = some v := by
  induction l with
  | nil => simp [alSet, alGet]
  | cons hd t ih =>
    obtain ⟨k', v'⟩ := hd
    by_cases hk : k' = k <;> simp [alSet, alGet, hk, ih]

theorem getCachedWrite_snd_fs (s : St) (p : String) :
    ((getCachedWrite s p).2).fs = s.fs := by
  unfold getCachedWrite
  cases alGet s.cache p with
  | none => rfl
  | some e => dsimp only []; split <;> rfl

theorem getCachedWrite_snd_override (s : St) (p : String) :
    ((getCachedWrite s p).2).override = s.override := by
  unfold getCachedWrite
  cases alGet s.cache p with
  | none => rfl
  | some e => dsimp only []; split <;> rfl

theorem getCachedWrite_snd_now (s : St) (p : String) :
    ((getCachedWrite s p).2).now = s.now := by
  unfold getCachedWrite
  cases alGet s.cache p with
  | none => rfl
  | some e => dsimp only []; split <;> rfl

/-- C3: for every one of the six tool handlers and every input, the handler
never propagates an exception: the result is either the body's successful
tool result, or — for every failure the body raises — a tool call result
with `isError = true` carrying the handler's human-readable label and the
failure message. -/
theorem c3_handlers_never_throw (cfg : Config) (st : St) :
    (∀ fp o l, (∃ v, (readFileBody cfg st fp o l).1 = .ok v ∧
        (readFileHandler cfg st fp o l).1 = v) ∨
      (∃ e, (readFileBody cfg st fp o l).1 = .error e ∧
        (readFileHandler cfg st fp o l).1 = ⟨"Error reading file: " ++ e, true⟩)) ∧
    (∀ fp c, (∃ v, (writeFileBody cfg st fp c).1 = .ok v ∧
        (writeFileHandler cfg st fp c).1 = v) ∨
      (∃ e, (writeFileBody cfg st fp c).1 = .error e ∧
        (writeFileHandler cfg st fp c).1 = ⟨"Error writing file: " ++ e, true⟩)) ∧
    (∀ fp os ns, (∃ v, (editFileBody cfg st fp os ns).1 = .ok v ∧
        (editFileHandler cfg st fp os ns).1 = v) ∨
      (∃ e, (editFileBody cfg st fp os ns).1 = .error e ∧
        (editFileHandler cfg st fp os ns).1 = ⟨"Error editing file: " ++ e, true⟩)) ∧
    (∀ pat sp, (∃ v, (globBody cfg st pat sp).1 = .ok v ∧
        (globHandler cfg st pat sp).1 = v) ∨
      (∃ e, (globBody cfg st pat sp).1 = .error e ∧
        (globHandler cfg st pat sp).1 = ⟨"Error globbing: " ++ e, true⟩)) ∧
    (∀ pat sp incl ctx mx, (∃ v, (grepBody cfg st pat sp incl ctx mx).1.1 = .ok v ∧
        (grepHandler cfg st pat sp incl ctx mx).1 = v) ∨
      (∃ e, (grepBody cfg st pat sp incl ctx mx).1.1 = .error e ∧
        (grepHandler cfg st pat sp incl ctx mx).1 =
          ⟨"Error running grep: " ++ e, true⟩)) ∧
    (∀ cmd cw tmo, (∃ v, (bashBody cfg st cmd cw tmo).1 = .ok v ∧
        (bashHandler cfg st cmd cw tmo).1 = v) ∨
      (∃ e, (bashBody cfg st cmd cw tmo).1 = .error e ∧
        (bashHandler cfg st cmd cw tmo).1 = ⟨"Error running bash: " ++ e, true⟩)) := by
  refine ⟨?_, ?_, ?_, ?_, ?_, ?_⟩
  · intro fp o l
    rcases h : (readFileBody cfg st fp o l).1 with e | v
    · exact Or.inr ⟨e, rfl, by rw [readFileHandler, wrapH_fst, h]⟩
    · exact Or.inl ⟨v, rfl, by rw [readFileHandler, wrapH_fst, h]⟩
  · intro fp c
    rcases h : (writeFileBody cfg st fp c).1 with e | v
    · exact Or.inr ⟨e, rfl, by rw [writeFileHandler, wrapH_fst, h]⟩
    · exact Or.inl ⟨v, rfl, by rw [writeFileHandler, wrapH_fst, h]⟩
  · intro fp os ns
    rcases h : (editFileBody cfg st fp os ns).1 with e | v
    · exact Or.inr ⟨e, rfl, by rw [editFileHandler, wrapH_fst, h]⟩
    · exact Or.inl ⟨v, rfl, by rw [editFileHandler, wrapH_fst, h]⟩
  · intro pat sp
    rcases h : (globBody cfg st pat sp).1 with e | v
    · exact Or.inr ⟨e, rfl, by rw [globHandler, wrapH_fst, h]⟩
    · exact Or.inl ⟨v, rfl, by rw [globHandler, wrapH_fst, h]⟩
  · intro pat sp incl ctx mx
    rcases h : (grepBody cfg st pat sp incl ctx mx).1.1 with e | v
    · exact Or.inr ⟨e, rfl, by simp only [grepHandler, wrapH_fst, h]⟩
    · exact Or.inl ⟨v, rfl, by simp only [grepHandler, wrapH_fst, h]⟩
  · intro cmd cw tmo
    rcases h : (bashBody cfg st cmd cw tmo).1 with e | v
    · exact Or.inr ⟨e, rfl, by rw [bashHandler, wrapH_fst, h]⟩
    · exact Or.inl ⟨v, rfl, by rw [bashHandler, wrapH_fst, h]⟩

/-- A configuration with no workspace folder configured. -/
def cfgNoWs : Config :=
  { workspaceFolders := [], sshHostSetting := "h", remoteAuthority := "",
    homedir := "/home/u", reviewEdit := none,
    exec := fun _ _ _ => .error "exec unavailable",
    findFiles := fun _ _ => .ok [] }

/-- C7 counterexample: with no workspace folder configured, a `glob` call is
NOT a fatal construction-time failure — the raised resolution error is
caught at the handler boundary and converted into a per-call tool result
with `isError = true`, contradicting the claim. -/
theorem c7_counterexample :
    (globBody cfgNoWs st0 "*" none).1 = .error noWorkspaceMsg ∧
    (globHandler cfgNoWs st0 "*" none).1 =
      ⟨"Error globbing: " ++ noWorkspaceMsg, true⟩ ∧
    (globHandler cfgNoWs st0 "*" none).1.isError = true := by
  refine ⟨rfl, rfl, rfl⟩

/-- C7 (amended): missing workspace-root configuration makes `getRemoteCwd`
(and hence every path resolution) raise immediately, but each tool handler
catches it and returns a per-call tool result with `isError = true` and the
configuration-error message; it does not escape the handler boundary. -/
theorem c7_amended_no_workspace (cfg : Config) (st : St)
    (h : cfg.workspaceFolders = []) :
    getRemoteCwd cfg = .error noWorkspaceMsg ∧
    (∀ p, toRemotePath cfg p = .error noWorkspaceMsg) ∧
    (∀ pat, (globHandler cfg st pat none).1 =
      ⟨"Error globbing: " ++ noWorkspaceMsg, true⟩) ∧
    (∀ p o l, (readFileHandler cfg st p o l).1 =
      ⟨"Error reading file: " ++ noWorkspaceMsg, true⟩) ∧
    (∀ cmd tmo, (bashHandler cfg st cmd none tmo).1 =
      ⟨"Error running bash: " ++ noWorkspaceMsg, true⟩) := by
  have hcwd : getRemoteCwd cfg = .error noWorkspaceMsg := by
    rw [getRemoteCwd, h]
  have hpath : ∀ p, toRemotePath cfg p = .error noWorkspaceMsg := by
    intro p
    rw [toRemotePath, hcwd]
  have hbase : resolveBase cfg none = .error noWorkspaceMsg := by
    rw [resolveBase, searchBase, hcwd]
  refine ⟨hcwd, hpath, ?_, ?_, ?_⟩
  · intro pat
    rw [globHandler, wrapH_fst, globBody, hbase]
  · intro p o l
    rw [readFileHandler, wrapH_fst, readFileBody, hpath]
  · intro cmd tmo
    simp only [bashHandler, wrapH_fst, bashBody, hbase]

/-- C7 witness: the amended theorem applied at the concrete no-workspace
configuration. -/
theorem c7_amended_no_workspace_witness :
    cfgNoWs.workspaceFolders = [] ∧
    (globHandler cfgNoWs st0 "pat" none).1 =
      ⟨"Error globbing: " ++ noWorkspaceMsg, true⟩ :=
  ⟨rfl, (c7_amended_no_workspace cfgNoWs st0 rfl).2.2.1 "pat"⟩

theorem cacheWrite_fs (s : St) (p c : String) : (cacheWrite s p c).fs = s.fs := rfl

theorem cacheWrite_override (s : St) (p c : String) :
    (cacheWrite s p c).override = s.override := rfl

theorem cacheWrite_cache (s : St) (p c : String) :
    (cacheWrite s p c).cache = alSet s.cache p ⟨c, s.now⟩ := rfl

theorem fsWrite_fs (s : St) (p c : String) : (fsWrite s p c).fs = alSet s.fs p c := rfl

theorem fsWrite_override (s : St) (p c : String) :
    (fsWrite s p c).override = s.override := rfl

theorem fsWrite_cache (s : St) (p c : String) : (fsWrite s p c).cache = s.cache := rfl

theorem fsWrite_now (s : St) (p c : String) : (fsWrite s p c).now = s.now := rfl

/-- Run of the write body when a fresh override for the resolved path is
pending: the override content is written and cached, bypassing the gate. -/
theorem writeFileBody_override_run (cfg : Config) (st : St) (P rp O A : String) (ts : Nat)
    (hrp : toRemotePath cfg P = .ok rp)
    (hov : st.override = some ⟨rp, O, ts⟩)
    (hfresh : st.now - ts < editOverrideTTL) :
    writeFileBody cfg st P A =
      (.ok ⟨"Successfully wrote " ++ toString O.utf8ByteSize ++ " bytes to " ++ P, false⟩,
       cacheWrite (fsWrite (getCachedWrite { st with override := none } rp).2 rp O) rp O) := by
  have hco : consumeEditOverride st rp = (some O, { st with override := none }) := by
    simp [consumeEditOverride, hov, hfresh]
  simp only [writeFileBody, hrp, hco]

/-- Run of the write body with no pending override and no review gate: the
requested content is written and cached. -/
theorem writeFileBody_nogate_run (cfg : Config) (st : St) (P rp C : String)
    (hrp : toRemotePath cfg P = .ok rp)
    (hov : st.override = none)
    (hgate : cfg.reviewEdit = none) :
    writeFileBody cfg st P C =
      (.ok ⟨"Successfully wrote " ++ toString C.utf8ByteSize ++ " bytes to " ++ P, false⟩,
       cacheWrite (fsWrite (getCachedWrite st rp).2 rp C) rp C) := by
  have hco : consumeEditOverride st rp = (none, st) := by
    simp [consumeEditOverride, hov]
  simp only [writeFileBody, hrp, hco, hgate]

/-- C2: a pending fresh edit override with content O for the resolved path
is consumed by the next `write_file`: O is written (for any configured
review gate, which is bypassed) and the override slot is cleared, so a
second `write_file` with no new override proceeds normally and writes its
own content. -/
theorem c2_override_precedence
    (cfg : Config) (st : St) (P rp O A C2c : String) (ts t2 : Nat)
    (hrp : toRemotePath cfg P = .ok rp)
    (hov : st.override = some ⟨rp, O, ts⟩)
    (hfresh : st.now - ts < editOverrideTTL) :
    ((writeFileHandler cfg st P A).1 =
      ⟨"Successfully wrote " ++ toString O.utf8ByteSize ++ " bytes to " ++ P, false⟩ ∧
     alGet (writeFileHandler cfg st P A).2.fs rp = some O ∧
     (writeFileHandler cfg st P A).2.override = none) ∧
    (cfg.reviewEdit = none →
      (writeFileHandler cfg { (writeFileHandler cfg st P A).2 with now := t2 } P C2c).1 =
        ⟨"Successfully wrote " ++ toString C2c.utf8ByteSize ++ " bytes to " ++ P, false⟩ ∧
      alGet (writeFileHandler cfg
        { (writeFileHandler cfg st P A).2 with now := t2 } P C2c).2.fs rp = some C2c) := by
  have h1 := writeFileBody_override_run cfg st P rp O A ts hrp hov hfresh
  have hh1 : (writeFileHandler cfg st P A).1 =
      ⟨"Successfully wrote " ++ toString O.utf8ByteSize ++ " bytes to " ++ P, false⟩ := by
    simp only [writeFileHandler, wrapH_fst, h1]
  have hh2 : (writeFileHandler cfg st P A).2 =
      cacheWrite (fsWrite (getCachedWrite { st with override := none } rp).2 rp O) rp O := by
    simp only [writeFileHandler, wrapH_snd, h1]
  have hfs1 : alGet (writeFileHandler cfg st P A).2.fs rp = some O := by
    rw [hh2, cacheWrite_fs, fsWrite_fs, getCachedWrite_snd_fs]
    exact alGet_alSet_self _ _ _
  have hov1 : (writeFileHandler cfg st P A).2.override = none := by
    rw [hh2, cacheWrite_override, fsWrite_override, getCachedWrite_snd_override]
  refine ⟨⟨hh1, hfs1, hov1⟩, ?_⟩
  intro hgate
  have hov2 : ({ (writeFileHandler cfg st P A).2 with now := t2 } : St).override = none := hov1
  have h2 := writeFileBody_nogate_run cfg
    { (writeFileHandler cfg st P A).2 with now := t2 } P rp C2c hrp hov2 hgate
  simp only [writeFileHandler, wrapH_snd] at h2
  constructor
  · simp only [writeFileHandler, wrapH_fst, wrapH_snd, h2]
  · simp only [writeFileHandler, wrapH_fst, wrapH_snd, h2, cacheWrite_fs, fsWrite_fs,
      getCachedWrite_snd_fs]
    exact alGet_alSet_self _ _ _

/-- The state for the C2 witness: a fresh override for `/g` is pending. -/
def stC2 : St := { fs := [], cache := [], override := some ⟨"/g", "OVR", 0⟩, now := 0 }

/-- C2 witness: concrete run where the requested content "requested" is
superseded by the pending override "OVR", which is then cleared, and a
second write stores its own content. -/
theorem c2_override_precedence_witness :
    (writeFileHandler cfg0 stC2 "/g" "requested").1 =
      ⟨"Successfully wrote 3 bytes to /g", false⟩ ∧
    alGet (writeFileHandler cfg0 stC2 "/g" "requested").2.fs "/g" = some "OVR" ∧
    (writeFileHandler cfg0 stC2 "/g" "requested").2.override = none ∧
    alGet (writeFileHandler cfg0
      { (writeFileHandler cfg0 stC2 "/g" "requested").2 with now := 5 }
      "/g" "second").2.fs "/g" = some "second" := by
  have h := c2_override_precedence cfg0 stC2 "/g" "/g" "OVR" "requested" "second" 0 5
    rfl rfl (by decide)
  exact ⟨h.1.1, h.1.2.1, h.1.2.2, (h.2 rfl).2⟩

/-- Run of the read body when the write cache holds a fresh entry for the
resolved path: the cached content is used, no live remote read happens. -/
theorem readFileBody_cached_run (cfg : Config) (st : St) (P rp T : String) (ts : Nat)
    (o l : Option Int)
    (hrp : toRemotePath cfg P = .ok rp)
    (hcache : alGet st.cache rp = some ⟨T, ts⟩)
    (hfresh : ¬ st.now - ts > writeCacheTTL) :
    readFileBody cfg st P o l = (.ok ⟨truncateOutput (sliceLines T o l), false⟩, st) := by
  have hgc : getCachedWrite st rp = (some T, st) := by
    simp [getCachedWrite, hcache, hfresh]
  simp only [readFileBody, hrp, hgc]

theorem sliceLines_none_none (text : String) : sliceLines text none none = text := by
  simp [sliceLines]

/-- A write with no gate and no override followed by a read within the
cache TTL yields the write's success message and then the truncated-output
view of the written content (served from the write-visibility cache). -/
theorem write_read_roundtrip_general
    (cfg : Config) (st : St) (P rp C : String) (t2 : Nat)
    (hrp : toRemotePath cfg P = .ok rp)
    (hov : st.override = none)
    (hgate : cfg.reviewEdit = none)
    (hfresh : ¬ t2 - st.now > writeCacheTTL) :
    (writeFileHandler cfg st P C).1 =
      ⟨"Successfully wrote " ++ toString C.utf8ByteSize ++ " bytes to " ++ P, false⟩ ∧
    (readFileHandler cfg { (writeFileHandler cfg st P C).2 with now := t2 } P none none).1 =
      ⟨truncateOutput C, false⟩ := by
  have h1 := writeFileBody_nogate_run cfg st P rp C hrp hov hgate
  have hh1 : (writeFileHandler cfg st P C).1 =
      ⟨"Successfully wrote " ++ toString C.utf8ByteSize ++ " bytes to " ++ P, false⟩ := by
    simp only [writeFileHandler, wrapH_fst, h1]
  have hh2 : (writeFileHandler cfg st P C).2 =
      cacheWrite (fsWrite (getCachedWrite st rp).2 rp C) rp C := by
    simp only [writeFileHandler, wrapH_snd, h1]
  refine ⟨hh1, ?_⟩
  have hcache : alGet ({ (writeFileHandler cfg st P C).2 with now := t2 } : St).cache rp =
      some ⟨C, st.now⟩ := by
    show alGet (writeFileHandler cfg st P C).2.cache rp = some ⟨C, st.now⟩
    rw [hh2, cacheWrite_cache, fsWrite_cache, fsWrite_now, getCachedWrite_snd_now]
    exact alGet_alSet_self _ _ _
  have hfresh2 : ¬ ({ (writeFileHandler cfg st P C).2 with now := t2 } : St).now - st.now >
      writeCacheTTL := hfresh
  have h3 := readFileBody_cached_run cfg { (writeFileHandler cfg st P C).2 with now := t2 }
    P rp C st.now none none hrp hcache hfresh2
  simp only [readFileHandler, wrapH_fst, h3, sliceLines_none_none]

/-- C1 (amended): after a successful `write_file(P, C)` with no review gate
and no pending override, an immediately following `read_file(P)` with no
offset or limit returns exactly C, provided C is within the 30000-character
truncation budget — the read is served from the write-visibility cache. -/
theorem c1_write_read_roundtrip
    (cfg : Config) (st : St) (P rp C : String) (t2 : Nat)
    (hrp : toRemotePath cfg P = .ok rp)
    (hov : st.override = none)
    (hgate : cfg.reviewEdit = none)
    (hfresh : ¬ t2 - st.now > writeCacheTTL)
    (hlen : C.length ≤ 30000) :
    (writeFileHandler cfg st P C).1 =
      ⟨"Successfully wrote " ++ toString C.utf8ByteSize ++ " bytes to " ++ P, false⟩ ∧
    (readFileHandler cfg { (writeFileHandler cfg st P C).2 with now := t2 } P none none).1 =
      ⟨C, false⟩ := by
  have h := write_read_roundtrip_general cfg st P rp C t2 hrp hov hgate hfresh
  refine ⟨h.1, ?_⟩
  rw [h.2, truncateOutput, if_pos hlen]

/-- C1 witness: a concrete short write/read round trip through the cache. -/
theorem c1_write_read_roundtrip_witness :
    (writeFileHandler cfg0 st0 "/c" "hello").1 =
      ⟨"Successfully wrote 5 bytes to /c", false⟩ ∧
    (readFileHandler cfg0 { (writeFileHandler cfg0 st0 "/c" "hello").2 with now := 3 }
      "/c" none none).1 = ⟨"hello", false⟩ := by
  have h := c1_write_read_roundtrip cfg0 st0 "/c" "/c" "hello" 3
    rfl rfl rfl (by decide) (by decide)
  exact ⟨h.1, h.2⟩

theorem strLength_mk (l : List Char) : (String.mk l).length = l.length := rfl

/-- A content string one character over the truncation budget. -/
def bigA : String := String.mk (List.replicate 30001 'a')

theorem bigA_data : bigA.data = List.replicate 30001 'a' := rfl

theorem bigA_length : bigA.length = 30001 := by
  simp only [String.length, bigA_data, List.length_replicate]

theorem truncMarker_length : truncMarker.length = 23 := by decide

theorem truncateOutput_bigA_length : (truncateOutput bigA).length = 30023 := by
  rw [truncateOutput]
  rw [if_neg (by rw [bigA_length]; omega)]
  simp only [String.length_append, strLength_mk, List.length_take, List.length_drop,
    bigA_data, List.length_replicate, bigA_length, truncMarker_length]
  omega

/-- C1 counterexample: for a 30001-character content, the immediately
following read does NOT return exactly the written content — the read path
truncates it (the result has 30023 characters), refuting the claim for
every content string. -/
theorem c1_counterexample :
    (readFileHandler cfg0 { (writeFileHandler cfg0 st0 "/c" bigA).2 with now := 0 }
      "/c" none none).1 ≠ ⟨bigA, false⟩ := by
  have h : (readFileHandler cfg0 { (writeFileHandler cfg0 st0 "/c" bigA).2 with now := 0 }
      "/c" none none).1 = ⟨truncateOutput bigA, false⟩ :=
    (write_read_roundtrip_general cfg0 st0 "/c" "/c" bigA 0 rfl rfl rfl (by decide)).2
  rw [h]
  intro heq
  rw [ToolResult.mk.injEq] at heq
  have hlen := congrArg String.length heq.1
  rw [truncateOutput_bigA_length, bigA_length] at hlen
  omega

theorem jsSplitPartsFuel_ne_nil (p : List Char) (fuel : Nat) (t : List Char) :
    jsSplitPartsFuel p fuel t ≠ [] := by
  cases fuel with
  | zero => simp [jsSplitPartsFuel]
  | succ n =>
    rw [jsSplitPartsFuel]
    cases h : findSub t p <;> simp

theorem occCount_zero_iff (t p : List Char) (hp : p ≠ []) :
    (jsSplitParts t p).length - 1 = 0 ↔ findSub t p = none := by
  rw [jsSplitParts, if_neg hp, jsSplitPartsFuel]
  cases h : findSub t p with
  | none => simp
  | some i =>
    simp only [List.length_cons]
    constructor
    · intro hlen
      have hpos := List.length_pos.mpr
        (jsSplitPartsFuel_ne_nil p t.length (t.drop (i + p.length)))
      omega
    · intro hc
      exact absurd hc (by simp)

theorem findSub_decomp (t p : List Char) : ∀ i, findSub t p = some i →
    t = t.take i ++ p ++ t.drop (i + p.length) := by
  induction t with
  | nil =>
    intro i h
    by_cases hp : p = []
    · subst hp
      simp [findSub] at h
      subst h
      simp
    · simp [findSub, hp] at h
  | cons c t' ih =>
    intro i h
    rw [findSub] at h
    by_cases hpre : p.isPrefixOf (c :: t')
    · rw [if_pos hpre] at h
      have hi : i = 0 := by
        injection h with h'
        omega
      subst hi
      obtain ⟨s, hs⟩ := List.isPrefixOf_iff_prefix.mp hpre
      rw [List.take_zero, List.nil_append, Nat.zero_add, ← hs, List.drop_left]
    · rw [if_neg hpre] at h
      obtain ⟨j, hj, hij⟩ := Option.map_eq_some'.mp h
      subst hij
      have hd := ih j hj
      have harith : j + 1 + p.length = (j + p.length) + 1 := by omega
      rw [List.take_succ_cons, harith, List.drop_succ_cons]
      calc c :: t' = c :: (t'.take j ++ p ++ t'.drop (j + p.length)) := by rw [← hd]
    _ = c :: t'.take j ++ p ++ t'.drop (j + p.length) := by simp

theorem strData_ne_nil (x : String) (hx : x ≠ "") : x.data ≠ [] := by
  intro hd
  apply hx
  cases x with
  | mk l =>
    simp only at hd
    subst hd
    rfl

theorem substAux_no_dollar (matched pre post : List Char) :
    ∀ r : List Char, '$' ∉ r → substAux matched pre post false r = r := by
  intro r
  induction r with
  | nil => intro _; rfl
  | cons c rest ih =>
    intro h
    have hc : c ≠ '$' := by
      intro he
      exact h (he ▸ List.mem_cons_self c rest)
    have hrest : '$' ∉ rest := fun hm => h (List.mem_cons_of_mem c hm)
    rw [substAux, if_neg hc, ih hrest]

theorem getSubstitution_no_dollar (matched pre post r : List Char) (h : '$' ∉ r) :
    getSubstitution matched pre post r = r :=
  substAux_no_dollar matched pre post r h

/-- C4 (amended): with no pending override and no review gate,
`edit_file(P, x, y)` on a file holding T succeeds when x occurs in T
exactly once (occurrences counted as the code counts them:
`split(x).length - 1`, i.e. non-overlapping left-to-right matches of a
non-empty x) and writes T with the unique occurrence of x replaced by y as
interpreted under the JS replacement-pattern substitution (`$$`, `$&`, a
dollar-backquote pair and `$'` are substituted; in particular a y
containing no dollar sign is inserted literally); it returns the NotFound
error result with the file unchanged when x does not occur; and the
Ambiguous error result with the file unchanged when x occurs more than
once. -/
theorem c4_edit_uniqueness
    (cfg : Config) (st : St) (P rp T x y : String)
    (hrp : toRemotePath cfg P = .ok rp)
    (hgate : cfg.reviewEdit = none)
    (hov : st.override = none)
    (hcache : st.cache = [])
    (hfs : alGet st.fs rp = some T)
    (hx : x ≠ "") :
    (occCount T x = 1 →
      (editFileHandler cfg st P x y).1 = ⟨"Successfully edited " ++ P, false⟩ ∧
      alGet (editFileHandler cfg st P x y).2.fs rp = some (jsReplaceFirst T x y) ∧
      ∃ pre post : List Char, T.data = pre ++ x.data ++ post ∧
        (jsReplaceFirst T x y).data =
          pre ++ getSubstitution x.data pre post y.data ++ post ∧
        ('$' ∉ y.data → (jsReplaceFirst T x y).data = pre ++ y.data ++ post)) ∧
    (occCount T x = 0 →
      (editFileHandler cfg st P x y).1 = ⟨"Error: old_string not found in " ++ P, true⟩ ∧
      (editFileHandler cfg st P x y).2 = st) ∧
    (∀ k, occCount T x = k → 1 < k →
      (editFileHandler cfg st P x y).1 = ⟨"Error: old_string found " ++ toString k ++
        " times in " ++ P ++ ". Provide more context to make it unique.", true⟩ ∧
      (editFileHandler cfg st P x y).2 = st) := by
  have hxd : x.data ≠ [] := strData_ne_nil x hx
  have hco : consumeEditOverride st rp = (none, st) := by
    simp [consumeEditOverride, hov]
  have hgc : getCachedWrite st rp = (none, st) := by
    simp [getCachedWrite, hcache, alGet]
  have hfsr : fsRead st rp = .ok T := by
    simp [fsRead, hfs]
  refine ⟨?_, ?_, ?_⟩
  · intro hocc
    have hfind : findSub T.data x.data ≠ none := by
      intro hn
      have := (occCount_zero_iff T.data x.data hxd).mpr hn
      rw [occCount] at hocc
      omega
    have hInc : jsIncludes T x = true := by
      rw [jsIncludes, Option.isSome_iff_ne_none]
      simpa using hfind
    have hbody : editFileBody cfg st P x y =
        (.ok ⟨"Successfully edited " ++ P, false⟩,
         cacheWrite (fsWrite st rp (jsReplaceFirst T x y)) rp (jsReplaceFirst T x y)) := by
      simp only [editFileBody, hrp, hco, hgc, hfsr, hInc, hocc, hgate]
      norm_num
    refine ⟨by simp only [editFileHandler, wrapH_fst, hbody], ?_, ?_⟩
    · simp only [editFileHandler, wrapH_snd, hbody, cacheWrite_fs, fsWrite_fs]
      exact alGet_alSet_self _ _ _
    · obtain ⟨i, hi⟩ := Option.ne_none_iff_exists'.mp hfind
      have hrepl : (jsReplaceFirst T x y).data =
          T.data.take i ++ getSubstitution x.data (T.data.take i)
            (T.data.drop (i + x.data.length)) y.data ++
            T.data.drop (i + x.data.length) := by
        show replaceFirstL T.data x.data y.data = _
        rw [replaceFirstL, hi]
      refine ⟨T.data.take i, T.data.drop (i + x.data.length),
        findSub_decomp T.data x.data i hi, hrepl, ?_⟩
      intro hnd
      rw [hrepl, getSubstitution_no_dollar _ _ _ _ hnd]
  · intro hocc
    have hfind : findSub T.data x.data = none := by
      rw [occCount] at hocc
      exact (occCount_zero_iff T.data x.data hxd).mp hocc
    have hInc : jsIncludes T x = false := by
      simp [jsIncludes, hfind]
    have hbody : editFileBody cfg st P x y =
        (.ok ⟨"Error: old_string not found in " ++ P, true⟩, st) := by
      simp only [editFileBody, hrp, hco, hgc, hfsr, hInc]
      norm_num
    exact ⟨by simp only [editFileHandler, wrapH_fst, hbody],
      by simp only [editFileHandler, wrapH_snd, hbody]⟩
  · intro k hocc hk
    have hfind : findSub T.data x.data ≠ none := by
      intro hn
      have := (occCount_zero_iff T.data x.data hxd).mpr hn
      rw [occCount] at hocc
      omega
    have hInc : jsIncludes T x = true := by
      rw [jsIncludes, Option.isSome_iff_ne_none]
      simpa using hfind
    have hbody : editFileBody cfg st P x y =
        (.ok ⟨"Error: old_string found " ++ toString k ++ " times in " ++ P ++
          ". Provide more context to make it unique.", true⟩, st) := by
      simp only [editFileBody, hrp, hco, hgc, hfsr, hInc, hocc, hk]
      norm_num [hk]
    exact ⟨by simp only [editFileHandler, wrapH_fst, hbody],
      by simp only [editFileHandler, wrapH_snd, hbody]⟩

/-- State with one file `/f` holding "hello". -/
def stF : St := { fs := [("/f", "hello")], cache := [], override := none, now := 0 }

/-- State with one file `/f` holding "abc". -/
def stAbc : St := { fs := [("/f", "abc")], cache := [], override := none, now := 0 }

/-- C4 counterexample: for a replacement string containing `$&`, the code
does not write T with the occurrence replaced by y literally: editing
"abc" by replacing "b" with "$&$&" succeeds and writes "abbc" (the JS
replacement-pattern substitution doubles the matched substring), not the
literal replacement "a$&$&c" the original claim asserts. -/
theorem c4_counterexample :
    (editFileHandler cfg0 stAbc "/f" "b" "$&$&").1 =
      ⟨"Successfully edited /f", false⟩ ∧
    alGet (editFileHandler cfg0 stAbc "/f" "b" "$&$&").2.fs "/f" = some "abbc" ∧
    some ("abbc" : String) ≠ some ("a$&$&c" : String) := by
  refine ⟨by decide, by decide, by decide⟩

/-- C4 witness: a dollar-free replacement is inserted literally, the
error branches report NotFound/Ambiguous, and a `$&` replacement undergoes
substitution. -/
theorem c4_edit_uniqueness_witness :
    (editFileHandler cfg0 stF "/f" "ell" "ELL").1 = ⟨"Successfully edited /f", false⟩ ∧
    alGet (editFileHandler cfg0 stF "/f" "ell" "ELL").2.fs "/f" = some "hELLo" ∧
    (editFileHandler cfg0 stF "/f" "zz" "Z").1 =
      ⟨"Error: old_string not found in /f", true⟩ ∧
    (editFileHandler cfg0 stF "/f" "l" "L").1 =
      ⟨"Error: old_string found 2 times in /f. Provide more context to make it unique.",
        true⟩ ∧
    alGet (editFileHandler cfg0 stAbc "/f" "b" "$&$&").2.fs "/f" = some "abbc" := by
  have h1 := c4_edit_uniqueness cfg0 stF "/f" "/f" "hello" "ell" "ELL"
    rfl rfl rfl rfl rfl (by decide)
  have h0 := c4_edit_uniqueness cfg0 stF "/f" "/f" "hello" "zz" "Z"
    rfl rfl rfl rfl rfl (by decide)
  have h2 := c4_edit_uniqueness cfg0 stF "/f" "/f" "hello" "l" "L"
    rfl rfl rfl rfl rfl (by decide)
  have h3 := c4_edit_uniqueness cfg0 stAbc "/f" "/f" "abc" "b" "$&$&"
    rfl rfl rfl rfl rfl (by decide)
  refine ⟨(h1.1 (by decide)).1, ?_, (h0.2.1 (by decide)).1,
    (h2.2.2 2 (by decide) (by decide)).1, ?_⟩
  · have he : jsReplaceFirst "hello" "ell" "ELL" = "hELLo" := by decide
    rw [← he]
    exact (h1.1 (by decide)).2.1
  · have he : jsReplaceFirst "abc" "b" "$&$&" = "abbc" := by decide
    rw [← he]
    exact (h3.1 (by decide)).2.1

/-- A remote side on which the exit sentinel never appears. -/
def envNone : SentinelEnv := ⟨fun _ => none, fun _ => none, fun _ => none⟩

/-- A remote side on which the command has already completed with exit 0
and stdout "done" (stderr sentinel absent). -/
def envDone : SentinelEnv := ⟨fun _ => some "0", fun _ => some "done", fun _ => none⟩

theorem remoteExecPollFuel_none (env : SentinelEnv) (startTime timeoutMs : Nat)
    (hnone : ∀ t, env.exitFile t = none) :
    ∀ fuel t, remoteExecPollFuel env startTime timeoutMs fuel t =
      .error ("Command timed out after " ++ toString timeoutMs ++ "ms") := by
  intro fuel
  induction fuel with
  | zero => intro t; rfl
  | succ n ih =>
    intro t
    rw [remoteExecPollFuel]
    split
    · simp only [hnone]
      exact ih (t + pollIntervalMs)
    · rfl

theorem matchGetD (o : Option Int) :
    (match o with | some n => n | none => 1) = o.getD 1 := by
  cases o <;> rfl

/-- C5: the sentinel-polling executor fails with the timeout error when no
exit sentinel is ever observable within the budget (default 120000 ms), and
otherwise returns the exit code parsed from the exit sentinel together with
the stdout/stderr sentinel contents, absent ones read as empty;
consequently `bash` over a never-completing command yields an error result
and a completed command yields its output. -/
theorem c5_executor_timeout_and_result :
    (∀ (env : SentinelEnv) (startTime : Nat) (tmpBase command cwd : String)
      (timeoutMs : Nat), (∀ t, env.exitFile t = none) →
      (remoteExec env startTime tmpBase command cwd timeoutMs).1 =
        .error ("Command timed out after " ++ toString timeoutMs ++ "ms")) ∧
    (∀ (outF errF : Nat → Option String) (startTime : Nat)
      (tmpBase command cwd es : String) (timeoutMs : Nat),
      jsTrim es ≠ "" → 0 < timeoutMs →
      (remoteExec ⟨fun _ => some es, outF, errF⟩ startTime tmpBase command cwd
        timeoutMs).1 =
        .ok ⟨(outF (startTime + pollIntervalMs)).getD "",
             (errF (startTime + pollIntervalMs)).getD "",
             (jsParseInt (jsTrim es)).getD 1⟩) ∧
    defaultTimeoutMs = 120000 ∧
    (∀ (command : String) (st : St) (timeoutMs : Nat), timeoutMs ≠ 0 →
      (bashHandler (cfgOf (fun c w tms =>
        (remoteExec envNone 0 "/tmp/.claude_exec_1" c w tms).1))
        st command (some "/x") (some timeoutMs)).1 =
        ⟨"Error running bash: " ++ ("Command timed out after " ++ toString timeoutMs ++
          "ms"), true⟩) ∧
    (∀ (command : String) (st : St),
      (bashHandler (cfgOf (fun c w tms =>
        (remoteExec envDone 0 "/tmp/.claude_exec_1" c w tms).1))
        st command (some "/x") (some 5000)).1 = ⟨"done", false⟩) := by
  have hpoll : ∀ (env : SentinelEnv) (startTime timeoutMs : Nat),
      (∀ t, env.exitFile t = none) →
      remoteExecPoll env startTime timeoutMs startTime =
        .error ("Command timed out after " ++ toString timeoutMs ++ "ms") := by
    intro env s T hn
    exact remoteExecPollFuel_none env s T hn (T + 1) s
  have hrem : ∀ (env : SentinelEnv) (startTime : Nat)
      (tmpBase command cwd : String) (timeoutMs : Nat),
      (remoteExec env startTime tmpBase command cwd timeoutMs).1 =
        remoteExecPoll env startTime timeoutMs startTime := by
    intro env s base cmd cwd T
    rfl
  refine ⟨?_, ?_, rfl, ?_, ?_⟩
  · intro env s base cmd cwd T hn
    rw [hrem]
    exact hpoll env s T hn
  · intro outF errF s base cmd cwd es T hes hT
    rw [hrem]
    rw [remoteExecPoll]
    rw [remoteExecPollFuel]
    rw [if_pos (show s - s < T by omega)]
    simp only []
    rw [if_neg hes]
    rw [matchGetD]
  · intro cmd st T hT
    have hexec : (cfgOf (fun c w tms =>
        (remoteExec envNone 0 "/tmp/.claude_exec_1" c w tms).1)).exec
          ("bash -c " ++ shellEscape cmd) "/x" T =
        .error ("Command timed out after " ++ toString T ++ "ms") := by
      show (remoteExec envNone 0 "/tmp/.claude_exec_1" ("bash -c " ++ shellEscape cmd)
        "/x" T).1 = _
      rw [hrem]
      exact hpoll envNone 0 T (fun _ => rfl)
    have hres : resolveBase (cfgOf (fun c w tms =>
        (remoteExec envNone 0 "/tmp/.claude_exec_1" c w tms).1)) (some "/x") =
        .ok "/x" := rfl
    have hbody : bashBody (cfgOf (fun c w tms =>
        (remoteExec envNone 0 "/tmp/.claude_exec_1" c w tms).1)) st cmd
        (some "/x") (some T) =
        (.error ("Command timed out after " ++ toString T ++ "ms"), st) := by
      rw [bashBody.eq_def, hres]
      simp only []
      rw [if_pos hT, hexec]
    simp only [bashHandler, wrapH_fst, hbody]
  · intro cmd st
    rfl

/-- C5 witness: the slow command times out at a 50 ms budget (as an
executor error and as a bash error result) and the fast command returns
"done". -/
theorem c5_executor_timeout_and_result_witness :
    (remoteExec envNone 0 "/tmp/.claude_exec_1" "sleep 10" "/ws" 50).1 =
      .error "Command timed out after 50ms" ∧
    (remoteExec envDone 0 "/tmp/.claude_exec_1" "echo done" "/ws" 5000).1 =
      .ok ⟨"done", "", 0⟩ ∧
    (bashHandler (cfgOf (fun c w tms =>
      (remoteExec envNone 0 "/tmp/.claude_exec_1" c w tms).1))
      st0 "sleep 10" (some "/x") (some 50)).1 =
      ⟨"Error running bash: Command timed out after 50ms", true⟩ := by
  have h := c5_executor_timeout_and_result
  refine ⟨?_, ?_, ?_⟩
  · exact h.1 envNone 0 "/tmp/.claude_exec_1" "sleep 10" "/ws" 50 (fun _ => rfl)
  · exact h.2.1 (fun _ => some "done") (fun _ => none) 0 "/tmp/.claude_exec_1"
      "echo done" "/ws" "0" 5000 (by decide) (by decide)
  · exact h.2.2.2.1 "sleep 10" st0 50 (by decide)

/-- C6: in the grep handler, when the primary ripgrep result has exit code
127 or its stderr indicates the tool is absent, the handler re-executes
exactly once with the fallback grep command (the executed-command trace is
exactly [rgCmd, grepCmd], otherwise [rgCmd]); the final result is
classified as: exit code 1 with empty stdout yields the non-error "No
matches found.", exit code above 1 yields an error result carrying
stderr-or-stdout, and any other outcome returns the truncated stdout as a
non-error result. -/
theorem c6_grep_fallback_and_classification
    (E : String → String → Nat → Except String ExecResult)
    (pat : String) (incl : Option String) (ctx mx : Option Int) (r1 : ExecResult)
    (h1 : E (rgCmdOf pat incl ctx mx) "/ws" defaultTimeoutMs = .ok r1) :
    (rgAbsent r1 →
      ∀ r2 : ExecResult, E (grepCmdOf pat incl ctx mx) "/ws" defaultTimeoutMs = .ok r2 →
        grepTrace (cfgOf E) st0 pat none incl ctx mx =
          [rgCmdOf pat incl ctx mx, grepCmdOf pat incl ctx mx] ∧
        (grepHandler (cfgOf E) st0 pat none incl ctx mx).1 =
          (if r2.exitCode = 1 ∧ r2.stdout = "" then ⟨"No matches found.", false⟩
           else if 1 < r2.exitCode then
             ⟨"grep error (exit " ++ toString r2.exitCode ++ "): " ++
               (if r2.stderr ≠ "" then r2.stderr else r2.stdout), true⟩
           else ⟨truncateOutput r2.stdout, false⟩)) ∧
    (¬ rgAbsent r1 →
      grepTrace (cfgOf E) st0 pat none incl ctx mx = [rgCmdOf pat incl ctx mx] ∧
      (grepHandler (cfgOf E) st0 pat none incl ctx mx).1 =
        (if r1.exitCode = 1 ∧ r1.stdout = "" then ⟨"No matches found.", false⟩
         else if 1 < r1.exitCode then
           ⟨"grep error (exit " ++ toString r1.exitCode ++ "): " ++
             (if r1.stderr ≠ "" then r1.stderr else r1.stdout), true⟩
         else ⟨truncateOutput r1.stdout, false⟩)) := by
  have hres : resolveBase (cfgOf E) none = .ok "/ws" := rfl
  have h1' : (cfgOf E).exec (rgCmdOf pat incl ctx mx) "/ws" defaultTimeoutMs = .ok r1 := h1
  constructor
  · intro hA r2 h2
    have h2' : (cfgOf E).exec (grepCmdOf pat incl ctx mx) "/ws" defaultTimeoutMs =
        .ok r2 := h2
    have hbody : grepBody (cfgOf E) st0 pat none incl ctx mx =
        ((.ok (classifyGrep r2), [rgCmdOf pat incl ctx mx, grepCmdOf pat incl ctx mx]),
          st0) := by
      rw [grepBody.eq_def, hres]
      simp only []
      simp only [h1']
      rw [if_pos hA]
      simp only [h2']
    constructor
    · rw [grepTrace, hbody]
    · rw [grepHandler, wrapH_fst]
      rw [hbody]
      rw [classifyGrep]
    -- classification stated inline equals classifyGrep definitionally
  · intro hA
    have hbody : grepBody (cfgOf E) st0 pat none incl ctx mx =
        ((.ok (classifyGrep r1), [rgCmdOf pat incl ctx mx]), st0) := by
      rw [grepBody.eq_def, hres]
      simp only []
      simp only [h1']
      rw [if_neg hA]
    constructor
    · rw [grepTrace, hbody]
    · rw [grepHandler, wrapH_fst]
      rw [hbody]
      rw [classifyGrep]

/-- An executor oracle on which the primary search tool is absent (exit
127) and the fallback finds one match. -/
def execFallbackOracle : String → String → Nat → Except String ExecResult :=
  fun cmd _ _ =>
    if cmd = rgCmdOf "foo" none none none then .ok ⟨"", "", 127⟩
    else .ok ⟨"a.txt:1:foo", "", 0⟩

/-- C6 witness: with the primary command exiting 127, grep re-executes the
fallback command exactly once and returns its output. -/
theorem c6_grep_fallback_and_classification_witness :
    grepTrace (cfgOf execFallbackOracle) st0 "foo" none none none none =
      [rgCmdOf "foo" none none none, grepCmdOf "foo" none none none] ∧
    (grepHandler (cfgOf execFallbackOracle) st0 "foo" none none none none).1 =
      ⟨"a.txt:1:foo", false⟩ := by
  have h := (c6_grep_fallback_and_classification execFallbackOracle "foo" none none none
    ⟨"", "", 127⟩ rfl).1 (Or.inl rfl) ⟨"a.txt:1:foo", "", 0⟩ rfl
  refine ⟨h.1, ?_⟩
  rw [h.2]
  decide

theorem jsSliceIdx_natCast (len a : Nat) : jsSliceIdx len (a : Int) = min a len := by
  rw [jsSliceIdx, if_neg (by omega)]
  simp [Int.toNat_ofNat]

theorem drop_min_length {α : Type} (xs : List α) (a : Nat) :
    xs.drop (min a xs.length) = xs.drop a := by
  rcases le_total a xs.length with h | h
  · rw [min_eq_left h]
  · rw [min_eq_right h, List.drop_length, List.drop_eq_nil_of_le h]

theorem take_min_length {α : Type} (xs : List α) (a : Nat) :
    xs.take (min a xs.length) = xs.take a := by
  rcases le_total a xs.length with h | h
  · rw [min_eq_left h]
  · rw [min_eq_right h, List.take_length, List.take_of_length_le h]

theorem jsSlice_nat {α : Type} (xs : List α) (a b : Nat) :
    jsSlice xs (a : Int) ((a : Int) + (b : Int)) = (xs.drop a).take b := by
  rw [jsSlice]
  rw [show ((a : Int) + (b : Int)) = (((a + b : Nat) : Int)) by push_cast; ring]
  rw [jsSliceIdx_natCast, jsSliceIdx_natCast]
  rw [take_min_length]
  rcases le_total a xs.length with h | h
  · rw [min_eq_left h]
    rw [List.drop_take (a + b) a xs]
    congr 1
    omega
  · rw [min_eq_right h]
    rw [List.drop_eq_nil_of_le h, List.take_nil]
    apply List.drop_eq_nil_of_le
    rw [List.length_take]
    omega

theorem jsSlice_to_end {α : Type} (xs : List α) (a : Nat) :
    jsSlice xs (a : Int) (xs.length : Int) = xs.drop a := by
  rw [jsSlice, jsSliceIdx_natCast, jsSliceIdx_natCast, min_self, List.take_length,
    drop_min_length]

theorem readFileBody_fs_run (cfg : Config) (st : St) (P rp T : String) (o l : Option Int)
    (hrp : toRemotePath cfg P = .ok rp)
    (hcache : st.cache = [])
    (hfs : alGet st.fs rp = some T) :
    readFileBody cfg st P o l = (.ok ⟨truncateOutput (sliceLines T o l), false⟩, st) := by
  have hgc : getCachedWrite st rp = (none, st) := by
    simp [getCachedWrite, hcache, alGet]
  have hfsr : fsRead st rp = .ok T := by
    simp [fsRead, hfs]
  simp only [readFileBody, hrp, hgc, hfsr]

/-- C8 (amended): `read_file` slices by 1-based line numbers for positive
given offset and limit — lines numbered `offset` through
`offset + limit - 1` (clipped to the text), the slice extending to the last
line when only the offset is given, and starting at line 1 when only the
limit is given; the handler returns the truncated slice of the decoded
content.  (A given limit of 0 is falsy in the source and behaves as if the
limit were absent, and an offset of 0 produces the JS negative slice index
-1; hence the positivity conditions.) -/
theorem c8_line_slicing (text : String) (o l : Nat) (ho : 1 ≤ o) (hl : 1 ≤ l) :
    (sliceLines text (some (o : Int)) (some (l : Int)) =
      String.intercalate "\n" (((jsSplitString text "\n").drop (o - 1)).take l)) ∧
    (sliceLines text (some (o : Int)) none =
      String.intercalate "\n" ((jsSplitString text "\n").drop (o - 1))) ∧
    (sliceLines text none (some (l : Int)) =
      String.intercalate "\n" ((jsSplitString text "\n").take l)) ∧
    (∀ (cfg : Config) (st : St) (P rp : String) (oi li : Option Int),
      toRemotePath cfg P = .ok rp → st.cache = [] → alGet st.fs rp = some text →
      (readFileHandler cfg st P oi li).1 =
        ⟨truncateOutput (sliceLines text oi li), false⟩) := by
  have hl0 : ((l : Nat) : Int) ≠ 0 := by omega
  have hcast : ((o : Nat) : Int) - 1 = (((o - 1 : Nat) : Nat) : Int) := by omega
  refine ⟨?_, ?_, ?_, ?_⟩
  · rw [sliceLines, if_neg (by simp)]
    simp only [Option.getD, if_pos hl0]
    rw [hcast, jsSlice_nat]
  · rw [sliceLines, if_neg (by simp)]
    simp only [Option.getD]
    rw [hcast, jsSlice_to_end]
  · rw [sliceLines, if_neg (by simp)]
    simp only [Option.getD, if_pos hl0]
    rw [show ((1 : Int) - 1) = ((0 : Nat) : Int) by norm_num]
    rw [jsSlice_nat]
    rw [List.drop_zero]
  · intro cfg st P rp oi li hrp hcache hfs
    have hb := readFileBody_fs_run cfg st P rp text oi li hrp hcache hfs
    simp only [readFileHandler, wrapH_fst, hb]

/-- State with one file `/f` holding three lines. -/
def stABC : St := { fs := [("/f", "a\nb\nc")], cache := [], override := none, now := 0 }

/-- C8 witness: reading lines 2..2 of "a\nb\nc" returns "b". -/
theorem c8_line_slicing_witness :
    sliceLines "a\nb\nc" (some ((2 : Nat) : Int)) (some ((1 : Nat) : Int)) = "b" ∧
    (readFileHandler cfg0 stABC "/f" (some ((2 : Nat) : Int))
      (some ((1 : Nat) : Int))).1 = ⟨"b", false⟩ := by
  have h := c8_line_slicing "a\nb\nc" 2 1 (by decide) (by decide)
  constructor
  · rw [h.1]
    decide
  · have hh := h.2.2.2 cfg0 stABC "/f" "/f" (some ((2 : Nat) : Int))
      (some ((1 : Nat) : Int)) rfl rfl rfl
    rw [hh, h.1]
    decide

/-- Modelled from the claim's words: the slice of the 1-based line numbers
`offset` through `offset + limit - 1`. -/
def specLineSlice (text : String) (offset limit : Nat) : String :=
  String.intercalate "\n" (((jsSplitString text "\n").drop (offset - 1)).take limit)

/-- State with one file `/f` holding two lines. -/
def stAB : St := { fs := [("/f", "a\nb")], cache := [], override := none, now := 0 }

/-- C8 counterexample: with offset 1 and limit 0 both given, the claim
demands the empty slice (lines 1 through 0), but the handler returns the
whole content, because a limit of 0 is falsy and the end index falls back
to the line count. -/
theorem c8_counterexample :
    specLineSlice "a\nb" 1 0 = "" ∧
    (readFileHandler cfg0 stAB "/f" (some 1) (some 0)).1 = ⟨"a\nb", false⟩ ∧
    ("a\nb" : String) ≠ "" := by
  refine ⟨by decide, by decide, by decide⟩

theorem strMk_data (s : String) : String.mk s.data = s := by
  cases s
  rfl

theorem strData_append (a b : String) : (a ++ b).data = a.data ++ b.data := by
  cases a
  cases b
  rfl

theorem slash_data : ("/" : String).data = ['/'] := rfl

theorem startsWith_slash_head (s : String) (l' : List Char)
    (hd : s.data = '/' :: l') : strStartsWith s "/" = true := by
  rw [strStartsWith, slash_data, hd]
  rw [List.isPrefixOf_iff_prefix]
  exact ⟨l', rfl⟩

/-- C9: a logical path formed by joining a relative path r onto the local
working root resolves to the same remote path as r alone (both join r onto
the remote workspace root), and the local working root itself resolves to
the remote workspace root.  Side conditions record the shape the local
root always has in practice: it is absolute and has no trailing slash. -/
theorem c9_local_root_resolution (cfg : Config) (r w : String) (ws : List String)
    (hws : cfg.workspaceFolders = w :: ws)
    (hr : strStartsWith r "/" = false)
    (hL0 : strStartsWith (getLocalCwd cfg) "/" = true)
    (hL1 : strEndsWith (getLocalCwd cfg) "/" = false) :
    toRemotePath cfg (posixJoin (getLocalCwd cfg) r) = toRemotePath cfg r ∧
    toRemotePath cfg (getLocalCwd cfg) = .ok w := by
  have hcwd : getRemoteCwd cfg = .ok w := by
    rw [getRemoteCwd, hws]
  obtain ⟨l', hL⟩ : ∃ l', (getLocalCwd cfg).data = '/' :: l' := by
    rw [strStartsWith, slash_data] at hL0
    obtain ⟨t, ht⟩ := List.isPrefixOf_iff_prefix.mp hL0
    exact ⟨t, ht.symm⟩
  have hLne : getLocalCwd cfg ≠ "" := by
    intro h
    rw [h] at hL
    exact List.noConfusion hL
  have hB : toRemotePath cfg (getLocalCwd cfg) = .ok w := by
    rw [toRemotePath, hcwd]
    have hself : strStartsWith (getLocalCwd cfg) (getLocalCwd cfg) = true := by
      rw [strStartsWith, List.isPrefixOf_iff_prefix]
    have hdrop : strDropChars (getLocalCwd cfg) (getLocalCwd cfg).length = "" := by
      rw [strDropChars]
      rw [show (getLocalCwd cfg).length = (getLocalCwd cfg).data.length from rfl]
      rw [List.drop_length]
    rw [hself]
    simp only [hdrop]
    rfl
  refine ⟨?_, hB⟩
  by_cases hre : r = ""
  · subst hre
    have hj : posixJoin (getLocalCwd cfg) "" = getLocalCwd cfg := by
      rw [posixJoin, if_pos rfl]
    rw [hj, hB]
    rw [toRemotePath, hcwd]
    have h1 : strStartsWith "" (getLocalCwd cfg) = false := by
      rw [strStartsWith, hL]
      rfl
    have h2 : strStartsWith "" "/" = false := rfl
    rw [h1, h2]
    simp only [Bool.false_eq_true, if_false]
    rw [posixJoin, if_pos rfl]
  · have hj : posixJoin (getLocalCwd cfg) r = getLocalCwd cfg ++ "/" ++ r := by
      rw [posixJoin, if_neg hre, if_neg hLne, hL1]
      simp
    rw [hj]
    rw [toRemotePath, hcwd]
    have hstart : strStartsWith (getLocalCwd cfg ++ "/" ++ r) (getLocalCwd cfg) = true := by
      rw [strStartsWith, strData_append, strData_append, List.isPrefixOf_iff_prefix]
      exact ⟨("/" : String).data ++ r.data, by simp⟩
    rw [hstart]
    have hdrop : strDropChars (getLocalCwd cfg ++ "/" ++ r) (getLocalCwd cfg).length =
        String.mk ('/' :: r.data) := by
      rw [strDropChars, strData_append, strData_append]
      rw [show (getLocalCwd cfg).length = (getLocalCwd cfg).data.length from rfl]
      rw [List.append_assoc, List.drop_left]
      rfl
    simp only [hdrop]
    have hstrip : stripLeadSlash (String.mk ('/' :: r.data)) = r := by
      show (if '/' = '/' ∨ '/' = '\\' then String.mk r.data else String.mk ('/' :: r.data)) = r
      rw [if_pos (Or.inl rfl)]
    rw [hstrip]
    rw [if_pos hre]
    -- right-hand side
    have hrL : strStartsWith r (getLocalCwd cfg) = false := by
      rw [strStartsWith, hL]
      by_contra hc
      rw [Bool.not_eq_false] at hc
      obtain ⟨t, ht⟩ := List.isPrefixOf_iff_prefix.mp hc
      have : strStartsWith r "/" = true :=
        startsWith_slash_head r (l' ++ t) (by rw [← ht]; simp)
      rw [this] at hr
      exact Bool.noConfusion hr
    rw [toRemotePath, hcwd, hrL]
    simp only [Bool.false_eq_true, if_false]
    rw [hr]
    simp

/-- C9 witness: concrete resolution through the fixture configuration. -/
theorem c9_local_root_resolution_witness :
    toRemotePath cfg0 (posixJoin (getLocalCwd cfg0) "a/b") = toRemotePath cfg0 "a/b" ∧
    toRemotePath cfg0 (getLocalCwd cfg0) = .ok "/ws" ∧
    toRemotePath cfg0 "a/b" = .ok "/ws/a/b" := by
  have h := c9_local_root_resolution cfg0 "a/b" "/ws" [] rfl (by decide) (by decide)
    (by decide)
  exact ⟨h.1, h.2, rfl⟩

/-- Modelled from the claim's words: POSIX shell parsing of a single word.
Outside quotes a backslash escapes the next character, a single quote
opens a quoted span (inside which every character is literal), and
unescaped blanks end the word (returning `none` here, since the input is
expected to be exactly one word); an unterminated quote or a trailing
backslash is a parse error.  The accumulator holds the word in reverse. -/
def posixWordAux : Bool → List Char → List Char → Option (List Char)
  | true, [], _ => none
  | false, [], acc => some acc.reverse
  | true, c :: cs, acc =>
    if c = '\'' then posixWordAux false cs acc
    else posixWordAux true cs (c :: acc)
  | false, c :: cs, acc =>
    if c = '\'' then posixWordAux true cs acc
    else if c = '\\' then
      match cs with
      | [] => none
      | d :: cs' => posixWordAux false cs' (d :: acc)
    else if c = ' ' ∨ c = '\t' ∨ c = '\n' then none
    else posixWordAux false cs (c :: acc)

/-- Parse a string as exactly one POSIX shell word. -/
def parsePosixWord (s : String) : Option String :=
  (posixWordAux false s.data []).map String.mk

theorem escQuoteL_eq_join (l : List Char) :
    escQuoteL l =
      (l.map (fun c => if c = '\'' then ['\'', '\\', '\'', '\''] else [c])).join := by
  induction l with
  | nil => rfl
  | cons c cs ih => simp [escQuoteL, ih]

theorem posixWordAux_escQuote (cs : List Char) :
    ∀ acc, posixWordAux true (escQuoteL cs ++ ['\'']) acc =
      some (acc.reverse ++ cs) := by
  induction cs with
  | nil =>
    intro acc
    simp [escQuoteL, posixWordAux]
  | cons c cs' ih =>
    intro acc
    rw [escQuoteL]
    by_cases hc : c = '\''
    · subst hc
      rw [if_pos rfl]
      simp only [List.append_assoc, List.cons_append, List.nil_append]
      simp [posixWordAux, ih]
      rw [posixWordAux.eq_def]
      simp only []
      rw [if_pos trivial, ih]
      simp
    · rw [if_neg hc]
      simp only [List.append_assoc, List.cons_append, List.nil_append]
      simp [posixWordAux, hc, ih]

theorem parsePosixWord_shellEscape (s : String) :
    parsePosixWord (shellEscape s) = some s := by
  have hdata : (shellEscape s).data = '\'' :: (escQuoteL s.data ++ ['\'']) := by
    rw [shellEscape, strData_append, strData_append]
    simp
  rw [parsePosixWord, hdata]
  rw [posixWordAux.eq_def]
  simp only []
  rw [if_pos trivial]
  rw [posixWordAux_escQuote s.data []]
  simp [strMk_data]

/-- The executor oracle that reports the submitted command as its stdout. -/
def echoExec : String → String → Nat → Except String ExecResult :=
  fun cmd _ _ => .ok ⟨cmd, "", 0⟩

/-- C10: `shellEscape` wraps its argument in single quotes with every
embedded single quote replaced by the four characters
quote-backslash-quote-quote; under POSIX shell quoting rules the escaped
string parses back to exactly the original string as one literal word; and
the bash, grep and executor command builders pass the user-supplied
command, pattern, include and cwd strings through `shellEscape` (observed
via an echoing executor oracle, the built search commands, and the wrapped
command submitted to the shell channel). -/
theorem c10_shell_escaping :
    (∀ s : String, shellEscape s =
      "'" ++ String.mk ((s.data.map (fun c =>
        if c = '\'' then ['\'', '\\', '\'', '\''] else [c])).join) ++ "'") ∧
    (∀ s : String, parsePosixWord (shellEscape s) = some s) ∧
    (∀ (command : String) (st : St),
      (bashHandler (cfgOf echoExec) st command (some "/x") none).1 =
        ⟨truncateOutput ("bash -c " ++ shellEscape command), false⟩) ∧
    (∀ pat : String,
      rgCmdOf pat none none none =
        "rg --color=never --line-number " ++ shellEscape pat ∧
      grepCmdOf pat none none none = "grep -rn " ++ shellEscape pat ++ " .") ∧
    (∀ (env : SentinelEnv) (startTime : Nat) (tmpBase command cwd : String)
      (timeoutMs : Nat), cwd ≠ "" →
      (remoteExec env startTime tmpBase command cwd timeoutMs).2.head? =
        some ("(" ++ ("cd " ++ shellEscape cwd ++ " && ") ++ command ++ ") > " ++
          tmpBase ++ ".out 2> " ++ tmpBase ++ ".err; echo $? > " ++
          tmpBase ++ ".exit")) := by
  refine ⟨?_, parsePosixWord_shellEscape, ?_, ?_, ?_⟩
  · intro s
    rw [shellEscape, escQuoteL_eq_join]
  · intro command st
    have hres : resolveBase (cfgOf echoExec) (some "/x") = .ok "/x" := rfl
    have hne : ("bash -c " ++ shellEscape command : String) ≠ "" := by
      intro h
      have hlen := congrArg String.length h
      rw [String.length_append] at hlen
      have h8 : ("bash -c " : String).length = 8 := by decide
      rw [h8] at hlen
      simp at hlen
    have hexec : (cfgOf echoExec).exec ("bash -c " ++ shellEscape command) "/x"
        defaultTimeoutMs = .ok ⟨"bash -c " ++ shellEscape command, "", 0⟩ := rfl
    rw [bashHandler, wrapH_fst, bashBody.eq_def, hres]
    simp only []
    rw [hexec]
    simp only []
    rw [if_pos hne]
    rw [if_neg (by simp : ¬ (("" : String) ≠ ""))]
    rw [if_neg hne]
  · intro pat
    exact ⟨rfl, rfl⟩
  · intro env startTime tmpBase command cwd timeoutMs hcwd
    simp only [remoteExec]
    rw [if_pos hcwd]
    rfl

/-- C10 witness: concrete escape, parse-back, bash command build and
executor wrapped-command build. -/
theorem c10_shell_escaping_witness :
    parsePosixWord (shellEscape "a'b") = some "a'b" ∧
    shellEscape "a'b" = "'a'\\''b'" ∧
    (bashHandler (cfgOf echoExec) st0 "ls" (some "/x") none).1 =
      ⟨"bash -c 'ls'", false⟩ ∧
    (remoteExec envNone 0 "/tmp/.claude_exec_1" "ls" "/ws" 50).2.head? =
      some ("(cd '/ws' && ls) > /tmp/.claude_exec_1.out 2> " ++
        "/tmp/.claude_exec_1.err; echo $? > /tmp/.claude_exec_1.exit") := by
  have h := c10_shell_escaping
  refine ⟨h.2.1 "a'b", by decide, ?_, ?_⟩
  · rw [h.2.2.1 "ls" st0]
    decide
  · rw [h.2.2.2.2 envNone 0 "/tmp/.claude_exec_1" "ls" "/ws" 50 (by decide)]
    rfl
